import Mathlib

/-!
Shallow embedding of exifsort (src/exifsort/exifsort.py).

The script sorts a directory of images into sub-directories derived from
EXIF metadata.  Pure string manipulation (Python str.split, os.path.splitext,
datetime.strptime with the fixed pattern of the source) is translated into
executable Lean functions; the filesystem tree walked by `search` is an
explicit inductive tree; the per-file pipeline of `main` is explicit
state passing where an uncaught Python exception is an `Except.error` /
`Option.some` outcome.  `exifread.process_file` is an external collaborator
and is passed in as a function from a file path to its tag dictionary.
-/

namespace Exifsort

/-- Whitespace recognised by Python's `str.split()` (the ASCII cases:
space, tab, newline, carriage return, vertical tab, form feed). -/
def isPySpace (c : Char) : Bool :=
  c = ' ' || c = '\t' || c = '\n' || c = '\r' || c.toNat = 11 || c.toNat = 12

/-- Emit the word accumulated (reversed) in `acc`, if any. -/
def flushWord (acc : List Char) : List String :=
  match acc with
  | [] => []
  | _ => [String.mk acc.reverse]

/-- Worker for `splitWs`: `acc` holds the current word, reversed. -/
def splitWsAux : List Char → List Char → List String
  | [], acc => flushWord acc
  | c :: cs, acc =>
    if isPySpace c then flushWord acc ++ splitWsAux cs []
    else splitWsAux cs (c :: acc)

/-- Python `s.split()` with no argument: split on runs of whitespace,
producing no empty tokens. -/
def splitWs (s : String) : List String := splitWsAux s.data []

/-- Characters of a path after its last '/' (the basename). -/
def afterLastSlash (cs : List Char) : List Char :=
  cs.foldl (fun acc c => if c = '/' then [] else acc ++ [c]) []

/-- Split a reversed character list at its first '.', i.e. the original
list at its last '.': returns (chars after the last dot, reversed;
chars before it, reversed), or none when there is no dot. -/
def takeUntilDot : List Char → Option (List Char × List Char)
  | [] => none
  | c :: cs =>
    if c = '.' then some ([], cs)
    else
      match takeUntilDot cs with
      | none => none
      | some (a, r) => some (c :: a, r)

/-- `os.path.splitext(p)[1][1:]`: the extension of `p`'s basename without
its leading dot.  The basename's last dot begins an extension only when a
character before it in the basename is not a dot (so ".bashrc" has none). -/
def extOf (p : String) : String :=
  let b := afterLastSlash p.data
  match takeUntilDot b.reverse with
  | some (sufRev, restRev) =>
    if restRev.any (fun c => c ≠ '.') then String.mk sufRev.reverse else ""
  | none => ""

/-- ASCII lower-casing, as Python `str.lower()` acts on ASCII letters.
Used only to state case-insensitive extension matching. -/
def asciiLower (s : String) : String :=
  String.mk (s.data.map fun c =>
    if 65 ≤ c.toNat ∧ c.toNat ≤ 90 then Char.ofNat (c.toNat + 32) else c)

/-- Uncaught Python exceptions the script can raise while handling a file. -/
inductive PyError where
  | keyError (tag : String)
  | typeError
  | valueError
  | indexError

/-- Decimal digit recognition, `[0-9]` of the CPython strptime regexes. -/
def isDigitCh (c : Char) : Bool := 48 ≤ c.toNat && c.toNat ≤ 57

/-- Numeric value of a decimal digit character. -/
def digitVal (c : Char) : Nat := c.toNat - 48

/-- The decimal digit character for a value below ten. -/
def digitChar : Nat → Char
  | 0 => '0'
  | 1 => '1'
  | 2 => '2'
  | 3 => '3'
  | 4 => '4'
  | 5 => '5'
  | 6 => '6'
  | 7 => '7'
  | 8 => '8'
  | 9 => '9'
  | _ => '?'

/-- Two-digit zero-padded decimal rendering of `n ≤ 99`. -/
def pad2 (n : Nat) : List Char := [digitChar (n / 10 % 10), digitChar (n % 10)]

/-- Four-digit zero-padded decimal rendering of `n ≤ 9999`. -/
def pad4 (n : Nat) : List Char :=
  [digitChar (n / 1000 % 10), digitChar (n / 100 % 10),
   digitChar (n / 10 % 10), digitChar (n % 10)]

/-- `%Y` of CPython strptime: exactly four decimal digits. -/
def parse4 : List Char → Option (Nat × List Char)
  | a :: b :: c :: d :: rest =>
    if isDigitCh a && isDigitCh b && isDigitCh c && isDigitCh d then
      some (1000 * digitVal a + 100 * digitVal b + 10 * digitVal c + digitVal d, rest)
    else none
  | _ => none

/-- A one-or-two digit numeric field with an admissible value range, the
behaviour of the CPython strptime regex alternatives for `%m` `%d` `%H`
`%M` `%S` inside the whole-pattern match: when two digits are present the
two-digit value must be admissible (falling back to the single digit would
leave a digit where the following literal separator or the end of the
string is required, failing the overall match anyway). -/
def parseNum (lo hi : Nat) : List Char → Option (Nat × List Char)
  | [] => none
  | c1 :: rest1 =>
    if isDigitCh c1 then
      match rest1 with
      | c2 :: rest2 =>
        if isDigitCh c2 then
          let n := 10 * digitVal c1 + digitVal c2
          if lo ≤ n ∧ n ≤ hi then some (n, rest2) else none
        else
          let n := digitVal c1
          if lo ≤ n ∧ n ≤ hi then some (n, rest1) else none
      | [] =>
        let n := digitVal c1
        if lo ≤ n ∧ n ≤ hi then some (n, []) else none
    else none

/-- A required literal character of the pattern. -/
def expectCh (c : Char) : List Char → Option (List Char)
  | [] => none
  | c1 :: rest => if c1 = c then some rest else none

/-- A whitespace run in the strptime format: CPython compiles it to the
regex `\s+`, so one or more whitespace characters are consumed (greedily;
the following field starts with a digit, which is never whitespace, so
the greedy run is the only possible split). -/
def expectWs1 : List Char → Option (List Char)
  | [] => none
  | c :: rest => if isPySpace c then some (rest.dropWhile isPySpace) else none

/-- Gregorian leap year, as Python's datetime uses. -/
def isLeap (y : Nat) : Bool := (y % 4 = 0 && y % 100 ≠ 0) || y % 400 = 0

/-- Days in a month, as validated by the datetime constructor. -/
def daysInMonth (y m : Nat) : Nat :=
  if m = 2 then (if isLeap y then 29 else 28)
  else if m = 4 ∨ m = 6 ∨ m = 9 ∨ m = 11 then 30
  else 31

/-- `datetime.datetime.strptime(s, '%Y:%m:%d %H:%M:%S')`: the six fields
(year, month, day, hour, minute, second) on success, `none` for the
ValueError raised on a failed match, unconverted trailing data, or a date
the datetime constructor rejects (year 0 or day out of range for month).
The format's space separator is compiled by CPython to `\s+`, so any
nonempty whitespace run (e.g. a tab, or several spaces) is accepted
there. -/
def strptimeList (cs : List Char) : Option (Nat × Nat × Nat × Nat × Nat × Nat) :=
  (parse4 cs).bind fun py =>
  (expectCh ':' py.2).bind fun r1 =>
  (parseNum 1 12 r1).bind fun pm =>
  (expectCh ':' pm.2).bind fun r2 =>
  (parseNum 1 31 r2).bind fun pd =>
  (expectWs1 pd.2).bind fun r3 =>
  (parseNum 0 23 r3).bind fun ph =>
  (expectCh ':' ph.2).bind fun r4 =>
  (parseNum 0 59 r4).bind fun pmin =>
  (expectCh ':' pmin.2).bind fun ps5 =>
  (parseNum 0 59 ps5).bind fun ps =>
  if ps.2 = [] ∧ 1 ≤ py.1 ∧ pd.1 ≤ daysInMonth py.1 pm.1 then
    some (py.1, pm.1, pd.1, ph.1, pmin.1, ps.1)
  else none

/-- `Canon.format_date`: parse the timestamp and join year, month, day with
'/' and no zero padding; a failed parse raises ValueError. -/
def format_date (payload : String) : Except PyError String :=
  match strptimeList payload.data with
  | some (y, m, d, _, _, _) =>
    .ok (Nat.repr y ++ "/" ++ Nat.repr m ++ "/" ++ Nat.repr d)
  | none => .error .valueError

/-- `Canon.format_time`: as `format_date` but with all six fields. -/
def format_time (payload : String) : Except PyError String :=
  match strptimeList payload.data with
  | some (y, m, d, h, mi, s) =>
    .ok (Nat.repr y ++ "/" ++ Nat.repr m ++ "/" ++ Nat.repr d ++ "/" ++
         Nat.repr h ++ "/" ++ Nat.repr mi ++ "/" ++ Nat.repr s)
  | none => .error .valueError

/-- `Canon.format_lens`: `payload.split()[0]`; IndexError on an empty
token list. -/
def format_lens (payload : String) : Except PyError String :=
  match splitWs payload with
  | [] => .error .indexError
  | t :: _ => .ok t

/-- `Canon.format_orientation`: `payload.split()[0]`. -/
def format_orientation (payload : String) : Except PyError String :=
  match splitWs payload with
  | [] => .error .indexError
  | t :: _ => .ok t

/-- `Canon.format_make`: the identity. -/
def format_make (payload : String) : Except PyError String := .ok payload

/-- `Canon.format_model`: `payload.split()[-1]`; IndexError on an empty
token list. -/
def format_model (payload : String) : Except PyError String :=
  match (splitWs payload).getLast? with
  | some t => .ok t
  | none => .error .indexError

/-- The eight sort keys the CLI flags can request, in the source's
`dest` spellings. -/
inductive SortKey where
  | date
  | time
  | model
  | lens
  | orientation
  | aperture
  | fnumber
  | make

/-- `Canon.staticmethods` built in `Canon.__init__`: note there is no
entry for `aperture` or `fnumber`. -/
def staticmethods : SortKey → Option (String → Except PyError String)
  | .date => some format_date
  | .time => some format_time
  | .model => some format_model
  | .lens => some format_lens
  | .orientation => some format_orientation
  | .make => some format_make
  | .aperture => none
  | .fnumber => none

/-- `Canon.metaindex` built in `Canon.__init__`: candidate tag names per
key; again no entry for `aperture` or `fnumber`. -/
def metaindex : SortKey → Option (List String)
  | .date => some ["Image DateTime"]
  | .time => some ["Image DateTime"]
  | .model => some ["Image Model"]
  | .lens => some ["EXIF LensModel"]
  | .orientation => some ["Image Orientation"]
  | .make => some ["Image Make"]
  | .aperture => none
  | .fnumber => none

/-- The tag dictionary `exifread.process_file` returns for one file,
with the tag values already rendered by `str`. -/
abbrev MetadataMap := List (String × String)

/-- Python dict indexing, as an option: `none` models the absent key. -/
def mmLookup (exif : MetadataMap) (tag : String) : Option String :=
  (exif.find? fun p => p.1 == tag).map Prod.snd

/-- `Canon.lookup`: `str(exif[self.metaindex[meta][0]])` when the key is
catalogued — a KeyError escapes when the tag is absent from the file —
and for a key missing from `metaindex` it prints a diagnostic and
returns None. -/
def lookup (meta : SortKey) (exif : MetadataMap) : Except PyError (Option String) :=
  match metaindex meta with
  | some tags =>
    match tags.head? with
    | some tag =>
      match mmLookup exif tag with
      | some v => .ok (some v)
      | none => .error (.keyError tag)
    | none => .error .indexError
  | none => .ok none

/-- `Canon.process`: dispatch through `staticmethods`; a key missing from
the table prints a diagnostic and returns None; a catalogued formatter
applied to the None a failed `lookup` returned raises TypeError (in
CPython, `None.split()` / `strptime(None, ...)`). -/
def process (meta : SortKey) (payload : Option String) : Except PyError (Option String) :=
  match staticmethods meta with
  | some f =>
    match payload with
    | some v => (f v).map some
    | none => .error .typeError
  | none => .ok none

/-- One element of main's destination list:
`camera.process(key, camera.lookup(key, exif))`. -/
def keyResult (k : SortKey) (exif : MetadataMap) : Except PyError (Option String) :=
  (lookup k exif).bind (process k)

/-- The comprehension `[camera.process(key, camera.lookup(key, exif)) for
key in order]`: keys are evaluated left to right and the first exception
escapes, discarding the whole list. -/
def resolveDest (order : List SortKey) (exif : MetadataMap) :
    Except PyError (List (Option String)) :=
  match order with
  | [] => .ok []
  | k :: ks =>
    match keyResult k exif with
    | .error e => .error e
    | .ok v =>
      match resolveDest ks exif with
      | .error e => .error e
      | .ok vs => .ok (v :: vs)

/-- Lexicographic comparison of character lists by code point, the order
Python's `sorted` uses on strings. -/
def charsLe : List Char → List Char → Bool
  | [], _ => true
  | _ :: _, [] => false
  | a :: as, b :: bs =>
    if a.toNat < b.toNat then true
    else if b.toNat < a.toNat then false
    else charsLe as bs

/-- String comparison, on the underlying characters. -/
def strLe (a b : String) : Bool := charsLe a.data b.data

/-- The ordering relation `sorted` uses, as a proposition. -/
def pyLe (a b : String) : Prop := strLe a b = true

instance : DecidableRel pyLe := fun a b => decEq (strLe a b) true

/-- Python `sorted` on a list of strings. -/
def sortStr (l : List String) : List String := List.insertionSort pyLe l

-- A directory tree: `os.path.isfile` is true exactly of `file` nodes and
-- `os.path.isdir` of `dir` nodes.  `FSL` is a directory listing, its entry
-- order the (arbitrary) order `os.listdir` reports.
mutual
/-- A node of the directory tree walked by `search`. -/
inductive FS where
  | file : FS
  | dir (children : FSL) : FS
/-- A directory listing, in the order `os.listdir` reports it. -/
inductive FSL where
  | nil : FSL
  | cons (name : String) (node : FS) (rest : FSL) : FSL
end

/-- `os.path.join(dirPath, name)` for a relative name. -/
def pyJoin (dirPath name : String) : String := dirPath ++ "/" ++ name

-- The body of `search`'s loop: a file is kept when the extension
-- allow-list is empty or `splitext(file_path)[1][1:]` is a member of it;
-- a directory is searched recursively (`search` returns its result already
-- sorted, as the source's recursive call does).
mutual
/-- One entry of the loop of `search`: keep a matching file, recurse
into a directory. -/
def goE (fullPath : String) (exts : List String) : FS → List String
  | .file =>
    if exts = [] then [fullPath]
    else if extOf fullPath ∈ exts then [fullPath] else []
  | .dir cs => sortStr (goL fullPath exts cs)
/-- The loop of `search` over a directory listing. -/
def goL (dirPath : String) (exts : List String) : FSL → List String
  | .nil => []
  | .cons name t rest => goE (pyJoin dirPath name) exts t ++ goL dirPath exts rest
end

/-- `search(path, extensions)`: collect over the listing, then
`return sorted(file_list)`. -/
def search (dirPath : String) (exts : List String) (entries : FSL) : List String :=
  sortStr (goL dirPath exts entries)

-- All file paths under a directory listing, with no filtering and no
-- sorting: the specification's "files under the root, recursively",
-- for comparison with `search`.
mutual
/-- File paths of one tree node, unfiltered. -/
def filesE (fullPath : String) : FS → List String
  | .file => [fullPath]
  | .dir cs => filesL fullPath cs
/-- File paths under a directory listing, unfiltered. -/
def filesL (dirPath : String) : FSL → List String
  | .nil => []
  | .cons name t rest => filesE (pyJoin dirPath name) t ++ filesL dirPath rest
end

/-- The filesystem operation a placement performs.  `copy2` is
`shutil.copy2` (duplicate, preserving metadata; source untouched),
`moved` is `shutil.move` (source removed on success). -/
inductive FileOp where
  | copy2
  | moved

/-- One successful placement: which file went to which destination
directory by which operation. -/
structure Placement where
  source : String
  destDir : String
  op : FileOp

/-- `os.path.join(os.path.abspath(output), *dest)` for an `output` taken
to be absolute already; each segment adds after a '/' (a segment that
itself contains '/' therefore spans several directory levels). -/
def joinSegs (root : String) (segs : List String) : String :=
  segs.foldl (fun a s => a ++ "/" ++ s) root

/-- All destination segments, provided none is None; `os.path.join`
raises TypeError on the first None segment. -/
def seqSegs : List (Option String) → Option (List String)
  | [] => some []
  | none :: _ => none
  | some s :: rest => (seqSegs rest).map (s :: ·)

/-- `copy(source, output, dest)`: join the destination, create it
(idempotently) and `shutil.copy2` the file there. -/
def copy (source output : String) (dest : List (Option String)) : Except PyError Placement :=
  match seqSegs dest with
  | some segs => .ok ⟨source, joinSegs output segs, .copy2⟩
  | none => .error .typeError

/-- `move(source, output, dest)`: as `copy` but `shutil.move`.  No caller
in the source ever invokes it: `main` always calls `copy`. -/
def move (source output : String) (dest : List (Option String)) : Except PyError Placement :=
  match seqSegs dest with
  | some segs => .ok ⟨source, joinSegs output segs, .moved⟩
  | none => .error .typeError

/-- One iteration of `main`'s loop for one image: extract the tags,
resolve the destination segments, place by `copy`. -/
def processImage (extract : String → MetadataMap) (order : List SortKey)
    (output : String) (image : String) : Except PyError Placement :=
  (resolveDest order (extract image)).bind (copy image output)

/-- `main`'s loop over the discovered files: the placements performed
before the first uncaught exception, and that exception if one occurred.
There is no try/except in `main`, so the first per-file exception stops
the whole loop. -/
def runFiles (extract : String → MetadataMap) (order : List SortKey)
    (output : String) : List String → List Placement × Option PyError
  | [] => ([], none)
  | f :: rest =>
    match processImage extract order output f with
    | .ok pl =>
      let r := runFiles extract order output rest
      (pl :: r.1, r.2)
    | .error e => ([], some e)

/-- `ext_img` as `main` builds it: the lower-case image extensions
followed by their upper-case variants. -/
def extImg : List String :=
  ["jpg", "jpeg", "cr2", "nef", "rw2", "arw", "srf", "sr2",
   "JPG", "JPEG", "CR2", "NEF", "RW2", "ARW", "SRF", "SR2"]

/-- The parsed command line: whether the input root exists, the two
positional paths, the `--move` flag, and the sort keys in flag encounter
order (the `OrderedAction` list). -/
structure CliArgs where
  inputExists : Bool
  input : String
  output : String
  moveFlag : Bool
  order : List SortKey

/-- Observable outcome of a run: lines printed by `cli`, placements
performed, and the interpreter's exit code (0 on normal return, 1 when
an exception escapes `main`). -/
structure RunResult where
  printed : List String
  placements : List Placement
  exitCode : Nat

/-- `cli` followed by `main`: a missing input root prints a diagnostic and
returns (a normal return, so exit code 0); otherwise discovery runs and
each found image is processed in turn.  Note `args.moveFlag` is never
consulted: `main` is called without it and always places by `copy`. -/
def cliRun (args : CliArgs) (tree : FSL) (extract : String → MetadataMap) : RunResult :=
  if args.inputExists = false then
    ⟨["Input path does not exist"], [], 0⟩
  else
    let files := search args.input extImg tree
    let r := runFiles extract args.order args.output files
    ⟨[], r.1, match r.2 with | none => 0 | some _ => 1⟩

/-- Canonical zero-padded rendering of six field values in the pattern
`YYYY:MM:DD HH:MM:SS`. -/
def renderTS (y mo d h mi s : Nat) : String :=
  String.mk (pad4 y ++ ':' :: (pad2 mo ++ ':' :: (pad2 d ++ ' ' ::
    (pad2 h ++ ':' :: (pad2 mi ++ ':' :: pad2 s)))))

/-- A fully tagged example file's metadata. -/
def exMetaFull : MetadataMap :=
  [("Image DateTime", "2013:08:05 17:39:46"), ("Image Model", "Canon EOS 60D")]

/-- Metadata for the specification's resolution example. -/
def exMeta2020 : MetadataMap :=
  [("Image DateTime", "2020:01:02 03:04:05"), ("Image Model", "Canon EOS 60D")]

/-- An extractor under which `/in/a.jpg` has no tags at all and every
other file is fully tagged. -/
def exExtract : String → MetadataMap :=
  fun p => if p = "/in/a.jpg" then [] else exMetaFull

/-- An extractor under which every file is fully tagged. -/
def exExtractFull : String → MetadataMap := fun _ => exMetaFull

/-- An extractor under which no file has any tag. -/
def exExtractEmpty : String → MetadataMap := fun _ => []

end Exifsort

namespace Exifsort

/-- The splitter yields no token exactly when every character is
whitespace and no word is pending. -/
theorem splitWsAux_eq_nil_iff : ∀ (cs acc : List Char),
    splitWsAux cs acc = [] ↔ (∀ c ∈ cs, isPySpace c = true) ∧ acc = []
  | [], acc => by
    cases acc with
    | nil => simp [splitWsAux, flushWord]
    | cons a as => simp [splitWsAux, flushWord]
  | c :: cs, acc => by
    by_cases h : isPySpace c
    · cases acc with
      | nil =>
        have ih := splitWsAux_eq_nil_iff cs []
        simp [splitWsAux, h, flushWord, ih]
      | cons a as =>
        simp [splitWsAux, h, flushWord]
    · have ih := splitWsAux_eq_nil_iff cs (c :: acc)
      simp [splitWsAux, h, ih]

/-- Python split returns no token exactly for an empty or
whitespace-only string. -/
theorem splitWs_eq_nil_iff (s : String) :
    splitWs s = [] ↔ ∀ c ∈ s.data, isPySpace c = true := by
  rw [splitWs, splitWsAux_eq_nil_iff]
  simp

/-- Every character of a token produced by the splitter comes from the
input characters or the pending word. -/
theorem splitWsAux_chars : ∀ (cs acc : List Char) (t : String),
    t ∈ splitWsAux cs acc → ∀ c ∈ t.data, c ∈ cs ∨ c ∈ acc
  | [], acc, t, ht, c, hc => by
    cases acc with
    | nil => simp [splitWsAux, flushWord] at ht
    | cons a as =>
      simp only [splitWsAux, flushWord, List.mem_singleton] at ht
      subst ht
      exact Or.inr (List.mem_reverse.mp (by simpa using hc))
  | c0 :: cs, acc, t, ht, c, hc => by
    by_cases h : isPySpace c0
    · simp only [splitWsAux, h, if_true, List.mem_append] at ht
      rcases ht with ht | ht
      · cases acc with
        | nil => simp [flushWord] at ht
        | cons a as =>
          simp only [flushWord, List.mem_singleton] at ht
          subst ht
          exact Or.inr (List.mem_reverse.mp (by simpa using hc))
      · rcases splitWsAux_chars cs [] t ht c hc with h1 | h1
        · exact Or.inl (List.mem_cons_of_mem _ h1)
        · simp at h1
    · simp only [splitWsAux, h, if_false] at ht
      rcases splitWsAux_chars cs (c0 :: acc) t ht c hc with h1 | h1
      · exact Or.inl (List.mem_cons_of_mem _ h1)
      · rcases List.mem_cons.mp h1 with h2 | h2
        · subst h2
          exact Or.inl (List.mem_cons_self _ _)
        · exact Or.inr h2

/-- Characters of a token of `splitWs p` are characters of `p`. -/
theorem splitWs_chars (p t : String) (ht : t ∈ splitWs p) :
    ∀ c ∈ t.data, c ∈ p.data := by
  intro c hc
  rcases splitWsAux_chars p.data [] t ht c hc with h | h
  · exact h
  · simp at h

/-- An element computed by `getLast?` is a member of the list. -/
theorem mem_of_getLast?_eq : ∀ (l : List String) (a : String),
    l.getLast? = some a → a ∈ l
  | [], a, h => by simp at h
  | [x], a, h => by simp_all
  | x :: y :: ys, a, h => by
    rw [List.getLast?_cons_cons] at h
    exact List.mem_cons_of_mem _ (mem_of_getLast?_eq (y :: ys) a h)

/-- On a nonempty list `getLast?` returns the `getLastD` value. -/
theorem getLast?_cons_eq_getLastD : ∀ (t : String) (ts : List String),
    (t :: ts).getLast? = some ((t :: ts).getLastD "")
  | _, [] => rfl
  | t, t2 :: ts => by
    rw [List.getLast?_cons_cons, getLast?_cons_eq_getLastD t2 ts]
    simp [List.getLastD_cons]

/-- C6: on the specification's examples the free-text formatters return
"60D", "EF-S18-135mm" and "Horizontal", and in general, whenever the
payload splits into at least one whitespace-delimited token,
`format_lens` and `format_orientation` return the first token and
`format_model` the last. -/
theorem c6_token_formatters :
    format_model "Canon EOS 60D" = .ok "60D"
    ∧ format_lens "EF-S18-135mm f/3.5-5.6 IS" = .ok "EF-S18-135mm"
    ∧ format_orientation "Horizontal (normal)" = .ok "Horizontal"
    ∧ ∀ (p t : String) (ts : List String), splitWs p = t :: ts →
        format_lens p = .ok t ∧ format_orientation p = .ok t ∧
          format_model p = .ok ((t :: ts).getLastD "") := by
  refine ⟨rfl, rfl, rfl, fun p t ts h => ⟨?_, ?_, ?_⟩⟩
  · unfold format_lens
    rw [h]
  · unfold format_orientation
    rw [h]
  · unfold format_model
    rw [h, getLast?_cons_eq_getLastD t ts]

/-- C10: on an empty or whitespace-only payload the three token-splitting
formatters raise IndexError (they index an empty token list), and under
the precondition that the payload has at least one non-whitespace
character each of them returns a segment. -/
theorem c10_empty_payload_formatters :
    (format_model "" = .error .indexError ∧ format_lens " " = .error .indexError
      ∧ format_orientation "\t " = .error .indexError) ∧
    (∀ p : String, (∀ c ∈ p.data, isPySpace c = true) →
      format_model p = .error .indexError ∧ format_lens p = .error .indexError ∧
        format_orientation p = .error .indexError) ∧
    (∀ p : String, (∃ c ∈ p.data, isPySpace c = false) →
      (∃ r, format_model p = .ok r) ∧ (∃ r, format_lens p = .ok r) ∧
        (∃ r, format_orientation p = .ok r)) := by
  refine ⟨⟨rfl, rfl, rfl⟩, fun p hp => ?_, fun p hp => ?_⟩
  · have h0 : splitWs p = [] := (splitWs_eq_nil_iff p).mpr hp
    refine ⟨?_, ?_, ?_⟩
    · unfold format_model
      rw [h0]
      rfl
    · unfold format_lens
      rw [h0]
    · unfold format_orientation
      rw [h0]
  · have hne : splitWs p ≠ [] := by
      rw [Ne, splitWs_eq_nil_iff]
      intro hall
      rcases hp with ⟨c, hc, hfalse⟩
      rw [hall c hc] at hfalse
      exact Bool.noConfusion hfalse
    cases h : splitWs p with
    | nil => exact absurd h hne
    | cons t ts =>
      refine ⟨⟨(t :: ts).getLastD "", ?_⟩, ⟨t, ?_⟩, ⟨t, ?_⟩⟩
      · unfold format_model
        rw [h, getLast?_cons_eq_getLastD t ts]
      · unfold format_lens
        rw [h]
      · unfold format_orientation
        rw [h]

/-- C1 fails on the code: under `exExtract` the file `/in/a.jpg` has no
tags, so sorting by date raises a KeyError that `main` does not catch;
the run ends with no failure report and the remaining discovered file
`/in/b.jpg` — which alone would be placed — is never processed. -/
theorem c1_counterexample :
    runFiles exExtract [SortKey.date] "/out" ["/in/a.jpg", "/in/b.jpg"]
      = ([], some (PyError.keyError "Image DateTime"))
    ∧ runFiles exExtract [SortKey.date] "/out" ["/in/b.jpg"]
      = ([⟨"/in/b.jpg", "/out/2013/8/5", FileOp.copy2⟩], none) := ⟨rfl, rfl⟩

/-- C1 amended: a file missing a tag required by a requested key makes
`Canon.lookup` raise a KeyError, and any per-file exception makes the
failing file unplaced while aborting the whole run — no failure is
recorded and the remaining files are not processed. -/
theorem c1_missing_tag_aborts_run :
    (∀ (exif : MetadataMap) (k : SortKey) (t : String) (ts : List String),
      metaindex k = some (t :: ts) → mmLookup exif t = none →
      lookup k exif = .error (.keyError t)) ∧
    (∀ (extract : String → MetadataMap) (order : List SortKey)
      (output f : String) (rest : List String) (e : PyError),
      processImage extract order output f = .error e →
      runFiles extract order output (f :: rest) = ([], some e)) := by
  constructor
  · intro exif k t ts h1 h2
    simp [lookup, h1, h2]
  · intro extract order output f rest e h
    simp [runFiles, h]

/-- Instance of `c1_missing_tag_aborts_run` at concrete inputs: an empty
tag dictionary loses the date lookup with a KeyError, and that exception
ends the run before any later file is reached. -/
theorem c1_witness :
    lookup SortKey.date ([] : MetadataMap) = .error (.keyError "Image DateTime")
    ∧ runFiles exExtract [SortKey.date] "/out" ["/in/a.jpg", "/in/z.jpg"]
      = ([], some (PyError.keyError "Image DateTime")) := by
  constructor
  · exact c1_missing_tag_aborts_run.1 [] SortKey.date "Image DateTime" [] rfl rfl
  · exact c1_missing_tag_aborts_run.2 exExtract [SortKey.date] "/out"
      "/in/a.jpg" ["/in/z.jpg"] (PyError.keyError "Image DateTime") rfl

/-- C2: the parsed `--move` flag is never consulted.  With the flag set,
a fully tagged image is still placed by `shutil.copy2` — a duplicate
that leaves the source in place — because `cli` never passes the flag to
`main` and `main` always calls `copy`. -/
theorem c2_move_flag_never_consulted :
    cliRun ⟨true, "/in", "/out", true, [SortKey.date]⟩
      (FSL.cons "a.jpg" FS.file FSL.nil) exExtractFull
      = ⟨[], [⟨"/in/a.jpg", "/out/2013/8/5", FileOp.copy2⟩], 0⟩ := rfl

/-- C7: `make` formatting is the identity, but `aperture` and `fnumber`
have no entry in Canon's tables at all: `lookup` and `process` print a
diagnostic and return None — not the raw value, and not a clean
FormatError — after which placement raises TypeError inside
`os.path.join`, crashing the run. -/
theorem c7_aperture_fnumber_unsupported :
    lookup SortKey.aperture exMetaFull = .ok none
    ∧ process SortKey.aperture (some "5.6") = .ok none
    ∧ process SortKey.fnumber (some "7.1") = .ok none
    ∧ process SortKey.make (some "Canon EOS 60D") = .ok (some "Canon EOS 60D")
    ∧ processImage exExtractFull [SortKey.aperture] "/out" "/in/b.jpg"
      = .error PyError.typeError := ⟨rfl, rfl, rfl, rfl, rfl⟩

/-- C8 fails on the code: a missing input root is reported by a plain
`print` followed by `return`, a normal interpreter exit with code 0, not
a nonzero code; and the input-validation failure is not the only fatal
condition — a per-file KeyError escapes `main` and ends the run with
exit code 1. -/
theorem c8_counterexample :
    (cliRun ⟨false, "/in", "/out", false, [SortKey.date]⟩
      (FSL.cons "a.jpg" FS.file FSL.nil) exExtractFull).exitCode = 0
    ∧ (cliRun ⟨true, "/in", "/out", false, [SortKey.date]⟩
      (FSL.cons "a.jpg" FS.file FSL.nil) exExtractEmpty).exitCode = 1 := ⟨rfl, rfl⟩

/-- C8 amended: when the input root does not exist the program prints the
diagnostic and returns before any discovery, resolution or placement —
but with exit code 0. -/
theorem c8_missing_input_aborts_early (args : CliArgs) (tree : FSL)
    (extract : String → MetadataMap) (h : args.inputExists = false) :
    cliRun args tree extract = ⟨["Input path does not exist"], [], 0⟩ := by
  simp [cliRun, h]

/-- Instance of `c8_missing_input_aborts_early` at a concrete state. -/
theorem c8_witness :
    cliRun ⟨false, "/x", "/y", false, []⟩ FSL.nil exExtractFull
      = ⟨["Input path does not exist"], [], 0⟩ :=
  c8_missing_input_aborts_early _ _ _ rfl

end Exifsort

namespace Exifsort

/-- C4: resolution preserves the caller-supplied key order exactly: a
successful destination list pairs keys and segments positionally — the
i-th segment is the looked-up and formatted value of the i-th key — so
directory nesting order equals the supplied key order, outermost first. -/
theorem c4_resolution_preserves_order :
    ∀ (order : List SortKey) (exif : MetadataMap) (segs : List (Option String)),
      resolveDest order exif = .ok segs →
      List.Forall₂ (fun k v => keyResult k exif = .ok v) order segs := by
  intro order
  induction order with
  | nil =>
    intro exif segs h
    simp only [resolveDest] at h
    injection h with h2
    subst h2
    exact List.Forall₂.nil
  | cons k ks ih =>
    intro exif segs h
    cases hk : keyResult k exif with
    | error e =>
      simp only [resolveDest, hk] at h
      exact Except.noConfusion h
    | ok v =>
      cases hr : resolveDest ks exif with
      | error e =>
        simp only [resolveDest, hk, hr] at h
        exact Except.noConfusion h
      | ok vs =>
        simp only [resolveDest, hk, hr] at h
        injection h with h2
        subst h2
        exact List.Forall₂.cons hk (ih exif vs hr)

/-- Instance of `c4_resolution_preserves_order` at the specification's
resolution example: order date-then-model yields the segments
"2020/1/2" then "60D", in that order. -/
theorem c4_witness :
    List.Forall₂ (fun k v => keyResult k exMeta2020 = .ok v)
      [SortKey.date, SortKey.model] [some "2020/1/2", some "60D"] :=
  c4_resolution_preserves_order [SortKey.date, SortKey.model] exMeta2020
    [some "2020/1/2", some "60D"] rfl

/-- C9 fails on the code: on the specification's own example the date
formatter returns a segment containing the path separator '/', so one
segment spans three directory levels, not one. -/
theorem c9_counterexample :
    format_date "2013:08:05 17:39:46" = .ok "2013/8/5"
    ∧ '/' ∈ ("2013/8/5" : String).data := ⟨rfl, by decide⟩

/-- C9 amended: segments are not separator-free.  Every segment
`format_date` or `format_time` returns contains '/' (one directory level
per date or time component); the token-splitting formatters introduce no
characters beyond those of the raw value, and `format_make` is the
identity, so those segments contain a separator only when the raw value
does. -/
theorem c9_segment_characters :
    (∀ p r : String, format_date p = .ok r → '/' ∈ r.data) ∧
    (∀ p r : String, format_time p = .ok r → '/' ∈ r.data) ∧
    (∀ p r : String, format_lens p = .ok r → ∀ c ∈ r.data, c ∈ p.data) ∧
    (∀ p r : String, format_orientation p = .ok r → ∀ c ∈ r.data, c ∈ p.data) ∧
    (∀ p r : String, format_model p = .ok r → ∀ c ∈ r.data, c ∈ p.data) ∧
    (∀ p r : String, format_make p = .ok r → r = p) := by
  have hsl : ("/" : String).data = ['/'] := rfl
  refine ⟨?_, ?_, ?_, ?_, ?_, ?_⟩
  · intro p r h
    unfold format_date at h
    cases hs : strptimeList p.data with
    | none => rw [hs] at h; exact Except.noConfusion h
    | some v =>
      obtain ⟨y, m, d, h4, m5, s6⟩ := v
      rw [hs] at h
      injection h with h2
      subst h2
      simp [String.data_append, hsl]
  · intro p r h
    unfold format_time at h
    cases hs : strptimeList p.data with
    | none => rw [hs] at h; exact Except.noConfusion h
    | some v =>
      obtain ⟨y, m, d, h4, m5, s6⟩ := v
      rw [hs] at h
      injection h with h2
      subst h2
      simp [String.data_append, hsl]
  · intro p r h c hc
    unfold format_lens at h
    cases hs : splitWs p with
    | nil => rw [hs] at h; exact Except.noConfusion h
    | cons t ts =>
      rw [hs] at h
      injection h with h2
      subst h2
      exact splitWs_chars p t (by rw [hs]; exact List.mem_cons_self _ _) c hc
  · intro p r h c hc
    unfold format_orientation at h
    cases hs : splitWs p with
    | nil => rw [hs] at h; exact Except.noConfusion h
    | cons t ts =>
      rw [hs] at h
      injection h with h2
      subst h2
      exact splitWs_chars p t (by rw [hs]; exact List.mem_cons_self _ _) c hc
  · intro p r h c hc
    unfold format_model at h
    cases hg : (splitWs p).getLast? with
    | none => rw [hg] at h; exact Except.noConfusion h
    | some t =>
      rw [hg] at h
      injection h with h2
      subst h2
      exact splitWs_chars p t (mem_of_getLast?_eq _ _ hg) c hc
  · intro p r h
    injection h with h2
    exact h2.symm

end Exifsort

namespace Exifsort

/-- Digit characters of the renderer are digits. -/
theorem isDigitCh_digitChar (d : Nat) (h : d ≤ 9) : isDigitCh (digitChar d) = true := by
  interval_cases d <;> rfl

/-- The renderer and the digit reader invert each other on one digit. -/
theorem digitVal_digitChar (d : Nat) (h : d ≤ 9) : digitVal (digitChar d) = d := by
  interval_cases d <;> rfl

/-- `%Y` reads back a four-digit zero-padded year. -/
theorem parse4_pad4 (y : Nat) (rest : List Char) (h : y ≤ 9999) :
    parse4 (pad4 y ++ rest) = some (y, rest) := by
  have h0 : y / 1000 % 10 ≤ 9 := by omega
  have h1 : y / 100 % 10 ≤ 9 := by omega
  have h2 : y / 10 % 10 ≤ 9 := by omega
  have h3 : y % 10 ≤ 9 := by omega
  have hval : 1000 * (y / 1000 % 10) + 100 * (y / 100 % 10) +
      10 * (y / 10 % 10) + y % 10 = y := by omega
  simp [pad4, parse4, isDigitCh_digitChar _ h0, isDigitCh_digitChar _ h1,
    isDigitCh_digitChar _ h2, isDigitCh_digitChar _ h3,
    digitVal_digitChar _ h0, digitVal_digitChar _ h1,
    digitVal_digitChar _ h2, digitVal_digitChar _ h3, hval]

/-- A numeric field reads back a two-digit zero-padded admissible value. -/
theorem parseNum_pad2 (lo hi n : Nat) (rest : List Char)
    (hlo : lo ≤ n) (hhi : n ≤ hi) (h99 : n ≤ 99) :
    parseNum lo hi (pad2 n ++ rest) = some (n, rest) := by
  have h0 : n / 10 % 10 ≤ 9 := by omega
  have h1 : n % 10 ≤ 9 := by omega
  have hval : 10 * (n / 10 % 10) + n % 10 = n := by omega
  simp [pad2, parseNum, isDigitCh_digitChar _ h0, isDigitCh_digitChar _ h1,
    digitVal_digitChar _ h0, digitVal_digitChar _ h1, hval, hlo, hhi]

/-- The final numeric field of the pattern, with nothing after it. -/
theorem parseNum_pad2_nil (lo hi n : Nat)
    (hlo : lo ≤ n) (hhi : n ≤ hi) (h99 : n ≤ 99) :
    parseNum lo hi (pad2 n) = some (n, []) := by
  have := parseNum_pad2 lo hi n [] hlo hhi h99
  simpa using this

/-- A literal separator of the pattern consumes itself. -/
theorem expectCh_self (c : Char) (rest : List Char) :
    expectCh c (c :: rest) = some rest := by
  simp [expectCh]

/-- Digit characters are not whitespace. -/
theorem isPySpace_digitChar (d : Nat) (h : d ≤ 9) :
    isPySpace (digitChar d) = false := by
  interval_cases d <;> rfl

/-- The whitespace run of the pattern consumes a single space followed by
a non-whitespace character. -/
theorem expectWs1_single (c : Char) (l : List Char) (hc : isPySpace c = false) :
    expectWs1 (' ' :: c :: l) = some (c :: l) := by
  simp [expectWs1, List.dropWhile, hc, show isPySpace ' ' = true from rfl]

/-- No month has more than 31 days. -/
theorem daysInMonth_le_31 (y m : Nat) : daysInMonth y m ≤ 31 := by
  unfold daysInMonth
  split_ifs <;> norm_num

/-- strptime parses back the canonical zero-padded rendering of any
valid date and time. -/
theorem strptimeList_renderTS (y mo d h mi s : Nat)
    (hy1 : 1 ≤ y) (hy : y ≤ 9999) (hmo1 : 1 ≤ mo) (hmo : mo ≤ 12)
    (hd1 : 1 ≤ d) (hd : d ≤ daysInMonth y mo) (hh : h ≤ 23)
    (hmi : mi ≤ 59) (hs : s ≤ 59) :
    strptimeList (renderTS y mo d h mi s).data = some (y, mo, d, h, mi, s) := by
  have hd31 : d ≤ 31 := le_trans hd (daysInMonth_le_31 y mo)
  have P0 : ∀ r : List Char, parse4 (pad4 y ++ r) = some (y, r) :=
    fun r => parse4_pad4 y r hy
  have P1 : ∀ r : List Char, parseNum 1 12 (pad2 mo ++ r) = some (mo, r) :=
    fun r => parseNum_pad2 1 12 mo r hmo1 hmo (by omega)
  have P2 : ∀ r : List Char, parseNum 1 31 (pad2 d ++ r) = some (d, r) :=
    fun r => parseNum_pad2 1 31 d r hd1 hd31 (by omega)
  have P3 : ∀ r : List Char, parseNum 0 23 (pad2 h ++ r) = some (h, r) :=
    fun r => parseNum_pad2 0 23 h r (Nat.zero_le h) hh (by omega)
  have P4 : ∀ r : List Char, parseNum 0 59 (pad2 mi ++ r) = some (mi, r) :=
    fun r => parseNum_pad2 0 59 mi r (Nat.zero_le mi) hmi (by omega)
  have P5 : parseNum 0 59 (pad2 s) = some (s, []) :=
    parseNum_pad2_nil 0 59 s (Nat.zero_le s) hs (by omega)
  have EW : expectWs1 (' ' :: (pad2 h ++ ':' :: (pad2 mi ++ ':' :: pad2 s)))
      = some (pad2 h ++ ':' :: (pad2 mi ++ ':' :: pad2 s)) := by
    have h0 : h / 10 % 10 ≤ 9 := by omega
    rw [show pad2 h ++ ':' :: (pad2 mi ++ ':' :: pad2 s)
        = digitChar (h / 10 % 10) :: (digitChar (h % 10)
            :: (':' :: (pad2 mi ++ ':' :: pad2 s))) from rfl]
    exact expectWs1_single _ _ (isPySpace_digitChar _ h0)
  have hdata : (renderTS y mo d h mi s).data
      = pad4 y ++ ':' :: (pad2 mo ++ ':' :: (pad2 d ++ ' ' ::
        (pad2 h ++ ':' :: (pad2 mi ++ ':' :: pad2 s)))) := rfl
  rw [hdata]
  simp only [strptimeList, P0, Option.some_bind, expectCh_self, EW, P1, P2, P3, P4, P5]
  rw [if_pos ⟨trivial, hy1, hd⟩]

/-- C5: for every raw value in the canonical zero-padded pattern
`YYYY:MM:DD HH:MM:SS` whose fields form a valid date and time,
`format_date` returns year/month/day and `format_time` returns
year/month/day/hour/minute/second, with no zero padding; and any raw
value strptime rejects makes both formatters raise the error uncaught
(the spec's FormatError). -/
theorem c5_date_time_formatting :
    (∀ y mo d h mi s : Nat, 1 ≤ y → y ≤ 9999 → 1 ≤ mo → mo ≤ 12 →
      1 ≤ d → d ≤ daysInMonth y mo → h ≤ 23 → mi ≤ 59 → s ≤ 59 →
      format_date (renderTS y mo d h mi s)
          = .ok (Nat.repr y ++ "/" ++ Nat.repr mo ++ "/" ++ Nat.repr d)
        ∧ format_time (renderTS y mo d h mi s)
          = .ok (Nat.repr y ++ "/" ++ Nat.repr mo ++ "/" ++ Nat.repr d ++ "/" ++
                 Nat.repr h ++ "/" ++ Nat.repr mi ++ "/" ++ Nat.repr s)) ∧
    (∀ p : String, strptimeList p.data = none →
      format_date p = .error .valueError ∧ format_time p = .error .valueError) := by
  constructor
  · intro y mo d h mi s hy1 hy hmo1 hmo hd1 hd hh hmi hs
    have hp := strptimeList_renderTS y mo d h mi s hy1 hy hmo1 hmo hd1 hd hh hmi hs
    constructor
    · unfold format_date
      rw [hp]
    · unfold format_time
      rw [hp]
  · intro p hp
    constructor
    · unfold format_date
      rw [hp]
    · unfold format_time
      rw [hp]

/-- Instance of `c5_date_time_formatting` at the specification's
example timestamp. -/
theorem c5_witness :
    format_date "2013:08:05 17:39:46" = .ok "2013/8/5"
    ∧ format_time "2013:08:05 17:39:46" = .ok "2013/8/5/17/39/46" := by
  have h := c5_date_time_formatting.1 2013 8 5 17 39 46 (by norm_num) (by norm_num)
    (by norm_num) (by norm_num) (by norm_num) (by decide) (by norm_num) (by norm_num)
    (by norm_num)
  exact ⟨h.1, h.2⟩

end Exifsort

namespace Exifsort

/-- The code-point comparison is total. -/
theorem charsLe_total : ∀ a b : List Char, charsLe a b = true ∨ charsLe b a = true
  | [], _ => Or.inl rfl
  | _ :: _, [] => Or.inr rfl
  | a :: as, b :: bs => by
    by_cases h1 : a.toNat < b.toNat
    · left
      simp [charsLe, h1]
    · by_cases h2 : b.toNat < a.toNat
      · right
        simp [charsLe, h2]
      · rcases charsLe_total as bs with hr | hr
        · left
          simp [charsLe, h1, h2, hr]
        · right
          simp [charsLe, h1, h2, hr]

/-- The code-point comparison is transitive. -/
theorem charsLe_trans : ∀ a b c : List Char,
    charsLe a b = true → charsLe b c = true → charsLe a c = true
  | [], _, _, _, _ => rfl
  | _ :: _, [], _, h1, _ => by simp [charsLe] at h1
  | _ :: _, _ :: _, [], _, h2 => by simp [charsLe] at h2
  | a :: as, b :: bs, c :: cs, h1, h2 => by
    by_cases hab : a.toNat < b.toNat <;> by_cases hba : b.toNat < a.toNat <;>
      by_cases hbc : b.toNat < c.toNat <;> by_cases hcb : c.toNat < b.toNat <;>
        first
          | omega
          | (simp only [charsLe, hab, hba, hbc, hcb, if_true, if_false,
              if_pos, if_neg] at h1 h2 ⊢
             first
               | rfl
               | omega
               | (simp [show a.toNat < c.toNat by omega])
               | (simp [show ¬ a.toNat < c.toNat by omega,
                   show ¬ c.toNat < a.toNat by omega]
                  exact charsLe_trans as bs cs h1 h2)
               | simp_all)

/-- `sorted` produces a list ordered by the code-point comparison. -/
theorem sortStr_sorted (l : List String) : List.Sorted pyLe (sortStr l) := by
  haveI : IsTotal String pyLe := ⟨fun a b => charsLe_total a.data b.data⟩
  haveI : IsTrans String pyLe :=
    ⟨fun a b c h1 h2 => charsLe_trans a.data b.data c.data h1 h2⟩
  exact List.sorted_insertionSort pyLe l

/-- `sorted` neither adds nor removes paths. -/
theorem mem_sortStr (x : String) (l : List String) : x ∈ sortStr l ↔ x ∈ l :=
  (List.perm_insertionSort pyLe l).mem_iff

mutual
/-- A path is collected from a node exactly when it is a file path under
that node whose extension passes the allow-list test. -/
theorem mem_goE (p : String) (exts : List String) (x : String) :
    ∀ t : FS, x ∈ goE p exts t ↔ x ∈ filesE p t ∧ (exts = [] ∨ extOf x ∈ exts)
  | .file => by
    by_cases he : exts = []
    · subst he
      simp [goE, filesE]
    · rw [show goE p exts FS.file
          = if exts = [] then [p] else if extOf p ∈ exts then [p] else [] from rfl,
        if_neg he,
        show filesE p FS.file = [p] from rfl]
      by_cases hm : extOf p ∈ exts
      · rw [if_pos hm]
        constructor
        · intro hx
          rcases List.mem_singleton.mp hx with rfl
          exact ⟨List.mem_singleton_self x, Or.inr hm⟩
        · intro hx
          exact hx.1
      · rw [if_neg hm]
        constructor
        · intro hx
          exact absurd hx (List.not_mem_nil x)
        · rintro ⟨hx, he2 | hm2⟩
          · exact absurd he2 he
          · rcases List.mem_singleton.mp hx with rfl
            exact absurd hm2 hm
  | .dir cs => by
    rw [show goE p exts (FS.dir cs) = sortStr (goL p exts cs) from rfl,
      show filesE p (FS.dir cs) = filesL p cs from rfl, mem_sortStr]
    exact mem_goL p exts x cs
/-- A path is collected from a listing exactly when it is a file path
under the listing whose extension passes the allow-list test. -/
theorem mem_goL (dirPath : String) (exts : List String) (x : String) :
    ∀ l : FSL, x ∈ goL dirPath exts l ↔ x ∈ filesL dirPath l ∧ (exts = [] ∨ extOf x ∈ exts)
  | .nil => by simp [goL, filesL]
  | .cons name t rest => by
    have h1 := mem_goE (pyJoin dirPath name) exts x t
    have h2 := mem_goL dirPath exts x rest
    rw [show goL dirPath exts (FSL.cons name t rest)
        = goE (pyJoin dirPath name) exts t ++ goL dirPath exts rest from rfl,
      show filesL dirPath (FSL.cons name t rest)
        = filesE (pyJoin dirPath name) t ++ filesL dirPath rest from rfl]
    rw [List.mem_append, List.mem_append, h1, h2]
    tauto
end

/-- C3 fails on the code: the extension test is exact string membership,
not case-insensitive.  The file `/in/a.Jpg` has extension "Jpg", whose
lower-casing "jpg" is in the allow-list `main` builds, yet discovery
returns nothing. -/
theorem c3_counterexample :
    search "/in" extImg (FSL.cons "a.Jpg" FS.file FSL.nil) = []
    ∧ extOf "/in/a.Jpg" = "Jpg" ∧ asciiLower "Jpg" = "jpg" ∧ "jpg" ∈ extImg := by
  refine ⟨rfl, rfl, rfl, ?_⟩
  simp [extImg]

/-- C3 amended: for every root and allow-list, discovery returns a list
sorted by the code-point order and containing exactly the files under
the root, recursively, whose extension is an exact member of the
allow-list (every file when the allow-list is empty); `main` supplies
both lower- and upper-case variants, so all-lower and all-upper
extensions match but mixed-case ones do not. -/
theorem c3_search_characterisation :
    ∀ (dirPath : String) (exts : List String) (tree : FSL),
      List.Sorted pyLe (search dirPath exts tree)
      ∧ ∀ x : String, x ∈ search dirPath exts tree
          ↔ x ∈ filesL dirPath tree ∧ (exts = [] ∨ extOf x ∈ exts) := by
  intro dirPath exts tree
  refine ⟨sortStr_sorted _, fun x => ?_⟩
  rw [show search dirPath exts tree = sortStr (goL dirPath exts tree) from rfl,
    mem_sortStr]
  exact mem_goL dirPath exts x tree

end Exifsort
